import Mathlib

/-!
Verification of the count aggregation module `metapool/count.py`.

The Python module is shallowly embedded: filenames and file contents are
`List Char`; functions that raise exceptions return `Option` or `Except`;
the filesystem (glob results, report existence, sequence-file parsing
outcomes) is passed in as explicit data.  Regular-expression matching is
embedded by hand, following Python's leftmost, greedy-with-backtracking
semantics for the concrete patterns appearing in the source.
-/

set_option maxHeartbeats 1000000

set_option maxRecDepth 4000

abbrev Str := List Char

/-- Helper: `dropLit? lit t` returns `some r` exactly when `t = lit ++ r`; it models
consuming a fixed literal prefix of a string. -/
def dropLit? : Str → Str → Option Str
  | [], t => some t
  | _ :: _, [] => none
  | l :: ls, c :: cs => if c = l then dropLit? ls cs else none

/-- First `some` result of `f` over a list, in order; models a Python loop
that returns on the first success. -/
def firstSome {α β : Type} (f : α → Option β) : List α → Option β
  | [] => none
  | x :: xs =>
    match f x with
    | some b => some b
    | none => firstSome f xs

/-- Helper: `greedyBack step pre suf` tries every split `suf = a ++ b`, longest `a`
first, returning the first `step (pre ++ a) b` that is `some`.  This models
the backtracking of a leading greedy `(.*)` group in Python `re.match`. -/
def greedyBack {β : Type} (step : Str → Str → Option β) : Str → Str → Option β
  | pre, [] => step pre []
  | pre, c :: rest =>
    match greedyBack step (pre ++ [c]) rest with
    | some r => some r
    | none => step pre (c :: rest)

/-! ## Filename Identity Parser (`_extract_name_and_lane`, count.py lines 17, 25-34)

`SAMPLE_PATTERN = re.compile(r'(.*)_(S\d{1,4})_(L\d{1,3})_([RI][12]).*')`
matched with `re.match`.  The leading greedy `(.*)` (which cannot cross a
newline) backtracks from the longest prefix; at a given split the bounded
digit groups are forced because each is followed by a literal `_`. -/

/-- Fixed tail of `SAMPLE_PATTERN` after the name group: parses
`_S<cell>_L<lane>_<R|I><1|2>` at the start of `t` and returns the full
lane group `'L' :: digits` on success. -/
def matchTail (t : Str) : Option Str :=
  match dropLit? ['_', 'S'] t with
  | none => none
  | some r1 =>
    let cell := r1.takeWhile Char.isDigit
    let r2 := r1.dropWhile Char.isDigit
    if cell ≠ [] ∧ cell.length ≤ 4 then
      match dropLit? ['_', 'L'] r2 with
      | none => none
      | some r3 =>
        let laneF := r3.takeWhile Char.isDigit
        let r4 := r3.dropWhile Char.isDigit
        if laneF ≠ [] ∧ laneF.length ≤ 3 then
          match dropLit? ['_'] r4 with
          | none => none
          | some r5 =>
            match r5 with
            | d :: n :: _ =>
              if (d = 'R' ∨ d = 'I') ∧ (n = '1' ∨ n = '2') then some ('L' :: laneF)
              else none
            | _ => none
        else none
    else none

/-- Step function for the greedy backtracking of the name group of
`SAMPLE_PATTERN`: the name may not contain a newline (`.` does not match
`\n`), and the rest of the pattern must match the remainder. -/
def fStep (pre suf : Str) : Option (Str × Str) :=
  if '\n' ∈ pre then none
  else
    match matchTail suf with
    | some lane => some (pre, lane)
    | none => none

/-- Embedding of `_extract_name_and_lane` (count.py lines 25-34): match
`SAMPLE_PATTERN` against the filename; on success return the name group and
`lane[1:].lstrip('0')`; `none` models the `ValueError` raised on a
non-matching filename. -/
def _extract_name_and_lane (s : Str) : Option (Str × Str) :=
  match greedyBack fStep [] s with
  | none => none
  | some (name, lane) => some (name, (lane.drop 1).dropWhile (fun c => c == '0'))

/-- The content shape matched by the tail of `SAMPLE_PATTERN`. -/
def tailShape (cell laneF : Str) (d n : Char) (rest : Str) : Str :=
  '_' :: 'S' :: (cell ++ '_' :: 'L' :: (laneF ++ '_' :: d :: n :: rest))

/-- Side conditions of the groups of `SAMPLE_PATTERN`. -/
def ConvParts (cell laneF : Str) (d n : Char) : Prop :=
  cell ≠ [] ∧ cell.length ≤ 4 ∧ (∀ c ∈ cell, c.isDigit = true) ∧
  laneF ≠ [] ∧ laneF.length ≤ 3 ∧ (∀ c ∈ laneF, c.isDigit = true) ∧
  (d = 'R' ∨ d = 'I') ∧ (n = '1' ∨ n = '2')

/-- A decomposition of a filename under the convention
`<name>_S<cellnum>_L<lane>_<R|I><1|2>...`. -/
def IsDecomp (s name cell laneF : Str) (d n : Char) (rest : Str) : Prop :=
  s = name ++ tailShape cell laneF d n rest ∧ '\n' ∉ name ∧ ConvParts cell laneF d n

/-- A filename matches the naming convention of `SAMPLE_PATTERN`. -/
def MatchesConvention (s : Str) : Prop :=
  ∃ name cell laneF d n rest, IsDecomp s name cell laneF d n rest

/-! ## Host-filter log parser (`_parse_samtools_counts`, count.py lines 21-22, 51-60)

`SAMTOOLS_PATTERN = re.compile(r'\[.*\] processed (\d+) reads', flags=re.MULTILINE)`
matched with `re.match` against the whole file content.  The greedy `.*`
inside the brackets cannot cross a newline and backtracks from the longest
candidate; the digit group is maximal because it is followed by a space. -/

def procLit : Str :=
  [' ', 'p', 'r', 'o', 'c', 'e', 's', 's', 'e', 'd', ' ']

def readsLit : Str :=
  [' ', 'r', 'e', 'a', 'd', 's']

/-- Decimal value of a digit string, as `int()` computes it. -/
def natOfDigits (ds : Str) : ℕ :=
  ds.foldl (fun acc c => 10 * acc + (c.toNat - '0'.toNat)) 0

/-- Parses `" processed <digits> reads"` at the start of `t` (the part of
`SAMTOOLS_PATTERN` after the closing bracket), returning the digit group's
value. -/
def parseProcessedTail (t : Str) : Option ℕ :=
  match dropLit? procLit t with
  | none => none
  | some r =>
    let ds := r.takeWhile Char.isDigit
    let r2 := r.dropWhile Char.isDigit
    if ds = [] then none
    else
      match dropLit? readsLit r2 with
      | none => none
      | some _ => some (natOfDigits ds)

/-- Step function for the greedy bracket content of `SAMTOOLS_PATTERN`:
the content may not contain a newline and must be followed by
`] processed <digits> reads`. -/
def sStep (pre suf : Str) : Option ℕ :=
  match dropLit? [']'] suf with
  | none => none
  | some t => if '\n' ∈ pre then none else parseProcessedTail t

/-- Embedding of `re.match(SAMTOOLS_PATTERN, content)` as an optional digit-group value. -/
def samtoolsMatch (s : Str) : Option ℕ :=
  match dropLit? ['['] s with
  | none => none
  | some rest => greedyBack sStep [] rest

/-- Embedding of `_parse_samtools_counts` (count.py lines 51-60): on a
match return `int(N) / 2.0` (as a rational); `none` models the
`ValueError` raised for a malformed log. -/
def _parse_samtools_counts (s : Str) : Option ℚ :=
  match samtoolsMatch s with
  | none => none
  | some n => some ((n : ℚ) / 2)

/-- A decomposition of file content matching `SAMTOOLS_PATTERN` at the
start: `[<no-newline text>] processed <digits> reads<anything>`. -/
def SamDecomp (s a ds rest : Str) : Prop :=
  s = '[' :: (a ++ ']' :: (procLit ++ ds ++ readsLit ++ rest)) ∧
  '\n' ∉ a ∧ ds ≠ [] ∧ (∀ c ∈ ds, c.isDigit = true)

/-! ## Direct Sequence Counter (`count_sequences_in_fastq`, count.py lines 230-248)

The quality-encoding variants are tried in the fixed source order; the file
itself is abstracted as the function `parse : FastqVariant → Option ℕ`
giving, for each variant, the record count if `skbio.io.read` parses the
file under that variant, and `none` if it raises `ValueError`. -/

inductive FastqVariant where
  | illumina18
  | illumina13
  | sanger
deriving DecidableEq

/-- The list `variants = ['illumina1.8', 'illumina1.3', 'sanger']`, in source order. -/
def fastqVariants : List FastqVariant :=
  [.illumina18, .illumina13, .sanger]

/-- Embedding of `count_sequences_in_fastq`: try each variant in order,
return the count of the first that parses; `none` models the final
`ValueError` raised when no variant parses. -/
def count_sequences_in_fastq (parse : FastqVariant → Option ℕ) : Option ℕ :=
  firstSome parse fastqVariants

/-- A file whose correct convention is illumina1.3 (the second tried):
parsing it under illumina1.8 raises, under illumina1.3 yields 80 records. -/
def fallthroughParse : FastqVariant → Option ℕ
  | .illumina18 => none
  | .illumina13 => some 80
  | .sanger => none

/-! ## Log Locator (`_parsefier`, count.py lines 63-145)

The run directory is abstracted by `glob : Str → List Str` (the paths a
glob pattern matches, in directory-scan order) and the per-file parser
`funk : Str → Option ℚ` (`none` models an exception raised by the parser).
The sample sheet is a list of records with the three fields read by the
source.  Python set iteration order is modelled by `List.dedup`; every
property proved is insensitive to that order. -/

structure SampleRecord where
  Sample_ID : Str
  Sample_Project : Str
  Lane : Str
deriving DecidableEq

inductive PError where
  | badFilename (f : Str)
  | dupMatches (pairs : List (Str × Str))
  | parseFail (p : Str)
deriving DecidableEq

structure PRow where
  sid : Str
  lane : Str
  project : Str
  path : Str
deriving DecidableEq

structure PResult where
  rows : List (Str × Str × ℚ)
  warned : Bool
  missing : List Str
deriving DecidableEq

/-- Embedding of `lane.zfill(3)`. -/
def zfill3 (s : Str) : Str :=
  List.replicate (3 - s.length) '0' ++ s

/-- Embedding of `os.path.join` for the non-absolute paths used here. -/
def joinL (a b : Str) : Str :=
  if a = [] then b else a ++ '/' :: b

/-- Embedding of `os.path.basename`: the part after the last slash. -/
def basenameL (p : Str) : Str :=
  p.foldl (fun acc c => if c = '/' then [] else acc ++ [c]) []

/-- The glob pattern `join(run_dir, project, subdir, '*_L{lane}_R1_001' + suffix)`
built at count.py lines 102-103. -/
def globPattern (run_dir project subdir lane3 suffix : Str) : Str :=
  joinL run_dir (joinL project (joinL subdir
    ('*' :: '_' :: 'L' :: (lane3 ++ ("_R1_001".toList ++ suffix)))))

/-- Rows collected for the files one glob returned (count.py lines 105-107):
each basename goes through `_extract_name_and_lane`, whose failure aborts
the whole call. -/
def rowsForFiles (project : Str) : List Str → Except PError (List PRow)
  | [] => .ok []
  | f :: fs =>
    match _extract_name_and_lane (basenameL f) with
    | none => .error (.badFilename (basenameL f))
    | some (nm, ln) =>
      match rowsForFiles project fs with
      | .error e => .error e
      | .ok rs => .ok (⟨nm, ln, project, f⟩ :: rs)

/-- The loop over the distinct (project, lane) pairs (count.py lines 94-107). -/
def collectRows (glob : Str → List Str) (run_dir subdir suffix : Str) :
    List (Str × Str) → Except PError (List PRow)
  | [] => .ok []
  | (project, lane) :: ps =>
    match rowsForFiles project (glob (globPattern run_dir project subdir (zfill3 lane) suffix)) with
    | .error e => .error e
    | .ok rs =>
      match collectRows glob run_dir subdir suffix ps with
      | .error e => .error e
      | .ok rs2 => .ok (rs ++ rs2)

/-- Embedding of `DataFrame.duplicated(subset=..)` with the default keep-first: the keys
whose occurrence has an identical key strictly earlier in the list. -/
def markDups : List (Str × Str) → List (Str × Str) → List (Str × Str)
  | _, [] => []
  | seen, k :: ks => (if k ∈ seen then [k] else []) ++ markDups (k :: seen) ks

/-- Embedding of `out.path.apply(funk)` (count.py line 137): parse every retained path,
first exception aborts. -/
def applyFunk (funk : Str → Option ℚ) : List PRow → Except PError (List (Str × Str × ℚ))
  | [] => .ok []
  | r :: rs =>
    match funk r.path with
    | none => .error (.parseFail r.path)
    | some q =>
      match applyFunk funk rs with
      | .error e => .error e
      | .ok t => .ok ((r.sid, r.lane, q) :: t)

/-- The set `\x7b(s.Sample_Project, s.Lane) for s in metadata\x7d` (count.py line 89). -/
def manifestProjects (metadata : List SampleRecord) : List (Str × Str) :=
  (metadata.map fun s => (s.Sample_Project, s.Lane)).dedup

/-- The set `\x7bs.Sample_ID for s in metadata\x7d` (count.py line 90). -/
def expectedIds (metadata : List SampleRecord) : List Str :=
  (metadata.map fun s => s.Sample_ID).dedup

/-- Embedding of `found = set(out['Sample_ID'])` (count.py line 113), computed before the
manifest filter. -/
def foundIds (allRows : List PRow) : List Str :=
  allRows.map fun r => r.sid

/-- Embedding of `out = out[out['Sample_ID'].isin(expected)]` (count.py line 116). -/
def keptRows (metadata : List SampleRecord) (allRows : List PRow) : List PRow :=
  allRows.filter fun r => decide (r.sid ∈ expectedIds metadata)

/-- The composite keys of the retained rows. -/
def keptKeys (metadata : List SampleRecord) (allRows : List PRow) : List (Str × Str) :=
  (keptRows metadata allRows).map fun r => (r.sid, r.lane)

/-- The warning condition `expected > found` (strict superset of Python
sets, count.py line 131), at the Sample_ID level only. -/
def warnedFlag (metadata : List SampleRecord) (allRows : List PRow) : Bool :=
  (foundIds allRows).all (fun x => decide (x ∈ expectedIds metadata)) &&
  (expectedIds metadata).any (fun x => decide (x ∉ foundIds allRows))

/-- The difference `expected - found`, the sample ids named by the warning message. -/
def missingIds (metadata : List SampleRecord) (allRows : List PRow) : List Str :=
  (expectedIds metadata).filter fun x => decide (x ∉ foundIds allRows)

/-- Embedding of `_parsefier` (count.py lines 63-145).  The returned
`PResult` carries the indexed table, whether `warnings.warn` fired, and the
set of sample ids named by the warning. -/
def _parsefier (glob : Str → List Str) (funk : Str → Option ℚ)
    (run_dir : Str) (metadata : List SampleRecord) (subdir suffix : Str) :
    Except PError PResult :=
  match collectRows glob run_dir subdir suffix (manifestProjects metadata) with
  | .error e => .error e
  | .ok allRows =>
    if markDups [] (keptKeys metadata allRows) ≠ [] then
      .error (.dupMatches (markDups [] (keptKeys metadata allRows)))
    else
      match applyFunk funk (keptRows metadata allRows) with
      | .error e => .error e
      | .ok table =>
        .ok ⟨table, warnedFlag metadata allRows,
          if warnedFlag metadata allRows then missingIds metadata allRows else []⟩

def dup5Meta : List SampleRecord :=
  [⟨"S".toList, "P".toList, "1".toList⟩]

/-- Two log files from repeated demultiplexing runs that differ only in the
cell number, both resolving to sample `S` in lane `1`. -/
def dup5Glob : Str → List Str :=
  fun _ => ["S_S1_L001_R1_001.log".toList, "S_S2_L001_R1_001.log".toList]

def dup5Funk : Str → Option ℚ :=
  fun _ => some 1

def dup5Rows : List PRow :=
  [⟨"S".toList, "1".toList, "P".toList, "S_S1_L001_R1_001.log".toList⟩,
   ⟨"S".toList, "1".toList, "P".toList, "S_S2_L001_R1_001.log".toList⟩]

/-- Manifest with the same sample `S` in two lanes of project `P`. -/
def gapMeta : List SampleRecord :=
  [⟨"S".toList, "P".toList, "1".toList⟩, ⟨"S".toList, "P".toList, "2".toList⟩]

/-- A run directory holding a log for `S` in lane 1 only: the glob for lane
`001` finds one file, the glob for lane `002` finds nothing. -/
def gapGlob : Str → List Str :=
  fun p =>
    if p = globPattern ("run".toList) ("P".toList) ("json".toList)
        (zfill3 ("1".toList)) (".json".toList)
    then ["S_S1_L001_R1_001.json".toList]
    else []

def gapFunk : Str → Option ℚ :=
  fun _ => some 90

/-- Rows collected for the witness input of the amended C2. -/
def gapRows : List PRow :=
  [⟨"S".toList, "1".toList, "P".toList, "S_S1_L001_R1_001.json".toList⟩]

/-! ## Demultiplex aggregator (`bcl2fastq_counts`, count.py lines 148-213)

The run directory is abstracted by a `DemuxEnv`: `statsJson` is the parsed
content of `Stats/Stats.json` when that file exists (`ConversionResults`:
per-lane blocks of `(SampleId, NumberReads)` pairs), `demuxCsv` the parsed
rows of `Reports/Demultiplex_Stats.csv` when that file exists.  Keys are
`(Sample_ID, Lane as string)` and `set_index(.., verify_integrity=True)`
is the uniqueness check. -/

structure LaneBlock where
  LaneNumber : ℕ
  DemuxResults : List (String × ℕ)
deriving DecidableEq

structure CsvRow where
  SampleID : String
  Lane : ℕ
  Reads : ℕ
deriving DecidableEq

abbrev DemuxTable := List ((String × String) × ℚ)

inductive DemuxError where
  | bothExist
  | neitherExists
  | dupKey
  | emptyConcat
deriving DecidableEq

/-- Embedding of `_bcl2fastq_counts` (count.py lines 174-191): flatten the
per-lane blocks, stringify the lane, keep `NumberReads` as
`raw_reads_r1r2`; `pd.concat([])` on an empty block list raises, and
`verify_integrity=True` raises on duplicate keys. -/
def _bcl2fastq_counts (blocks : List LaneBlock) : Except DemuxError DemuxTable :=
  if blocks = [] then .error .emptyConcat
  else
    let rows := blocks.flatMap fun b =>
      b.DemuxResults.map fun p => ((p.1, toString b.LaneNumber), (p.2 : ℚ))
    if (rows.map Prod.fst).Nodup then .ok rows else .error .dupKey

/-- Embedding of `_bclconvert_counts` (count.py lines 194-213): double the
single-direction read count, drop `Undetermined` rows, stringify the lane,
verify key uniqueness. -/
def _bclconvert_counts (rows : List CsvRow) : Except DemuxError DemuxTable :=
  let kept := rows.filter fun r => decide (r.SampleID ≠ "Undetermined")
  let table := kept.map fun r => ((r.SampleID, toString r.Lane), ((r.Reads * 2 : ℕ) : ℚ))
  if (table.map Prod.fst).Nodup then .ok table else .error .dupKey

structure DemuxEnv where
  statsJson : Option (List LaneBlock)
  demuxCsv : Option (List CsvRow)

/-- Embedding of `bcl2fastq_counts` (count.py lines 156-171): probe the two
fixed report paths; both present and neither present are the two `IOError`
cases, otherwise parse the variant that exists. -/
def bcl2fastq_counts (env : DemuxEnv) : Except DemuxError DemuxTable :=
  match env.statsJson, env.demuxCsv with
  | some _, some _ => .error .bothExist
  | some j, none => _bcl2fastq_counts j
  | none, some c => _bclconvert_counts c
  | none, none => .error .neitherExists

/-- A run exposing only the `Stats/Stats.json` variant: one lane, two
samples. -/
def statsOnlyEnv : DemuxEnv :=
  ⟨some [⟨1, [("s1", 100), ("s2", 60)]⟩], none⟩

/-! ## Run Aggregator (`run_counts`, count.py lines 309-328)

The four stage tables are the inputs (the source's intermediate results);
`run_counts` left-joins the trim, host-filter and direct tables onto the
demultiplex table on the composite key, computes the two ratio columns with
IEEE-754 float semantics (`x / 0` is `±inf` for `x ≠ 0` and `NaN` for
`x = 0`; any operand `NaN` gives `NaN`), then applies
`fillna(value='NA')`, which replaces `NaN` — and only `NaN` — by the
string marker. -/

inductive PFloat where
  | fin (q : ℚ)
  | inf
  | ninf
  | nan
deriving DecidableEq

/-- An output cell after `fillna`: either the `"NA"` marker or a float. -/
inductive OutCell where
  | NA
  | num (p : PFloat)
deriving DecidableEq

/-- Float division of two join cells (`none` is a `NaN` left by the join). -/
def divCell : Option ℚ → Option ℚ → PFloat
  | some a, some b =>
    if b = 0 then (if 0 < a then .inf else if a < 0 then .ninf else .nan)
    else .fin (a / b)
  | _, _ => .nan

/-- Effect of `fillna` on a count column: a missing cell becomes `"NA"`. -/
def fillCell : Option ℚ → OutCell
  | some q => .num (.fin q)
  | none => .NA

/-- Effect of `fillna` on a ratio column: only `NaN` becomes `"NA"`; infinities are
not missing values and survive. -/
def fillRatio : PFloat → OutCell
  | .nan => .NA
  | p => .num p

structure OutRow where
  sid : String
  lane : String
  raw_reads_r1r2 : ℚ
  total_biological_reads_r1r2 : OutCell
  non_host_reads : OutCell
  quality_filtered_reads_r1r2 : OutCell
  fraction_passing_quality_filter : OutCell
  fraction_non_human : OutCell
deriving DecidableEq

/-- Embedding of `run_counts` (count.py lines 309-328) downstream of the
four stage aggregators: `demux` is the demultiplex table (left side of the
join, its `raw_reads_r1r2` column has no missing cells), `fastp`, `mm2`
and `direct` the three joined tables. -/
def run_counts (demux fastp mm2 direct : DemuxTable) : List OutRow :=
  demux.map fun kv =>
    let f := fastp.lookup kv.1
    let nh := mm2.lookup kv.1
    let dc := direct.lookup kv.1
    ⟨kv.1.1, kv.1.2, kv.2, fillCell f, fillCell nh, fillCell dc,
      fillRatio (divCell dc (some kv.2)), fillRatio (divCell nh dc)⟩

/-! ## Direct counts (`direct_sequence_counts`, count.py lines 251-306) -/

def filteredLit : Str := "filtered_sequences".toList

def trimmedLit : Str := "trimmed_sequences".toList

inductive DirError where
  | noSeqDirs
  | badSample (r1 r2 : Str)
  | mismatch (r1 r2 : Str)
  | cantOpen (f : Str)
deriving DecidableEq

set_option linter.unusedVariables false

/-- Embedding of the subdirectory choice at count.py lines 262-269.  The
source tests `if join(run_dir, 'filtered_sequences'):` — the truthiness of
a path string, not its existence on disk — so the filesystem predicate
`dirExists` is never consulted, exactly as in the code, and the branch
raising the "directories do not exist" error is unreachable. -/
def direct_seq_subdir (dirExists : Str → Bool) (run_dir project : Str) :
    Except DirError Str :=
  if joinL run_dir filteredLit ≠ [] then .ok (joinL run_dir (joinL project filteredLit))
  else if joinL run_dir trimmedLit ≠ [] then .ok (joinL run_dir (joinL project trimmedLit))
  else .error .noSeqDirs

/-- The stricter per-pair pattern of count.py line 277,
`^(.*)_S\d+_L\d\d\d_R\d_\d\d\d.trimmed.fastq.gz$`, after the name group:
fully anchored, the unescaped dots matching any non-newline character. -/
def tailMatches2 (t : Str) : Bool :=
  match dropLit? ['_', 'S'] t with
  | none => false
  | some r1 =>
    let ds := r1.takeWhile Char.isDigit
    let r2 := r1.dropWhile Char.isDigit
    !ds.isEmpty &&
      match r2 with
      | '_' :: 'L' :: a :: b :: c :: '_' :: 'R' :: d :: '_' :: e :: f :: g :: w1 :: rest =>
        (a.isDigit && b.isDigit && c.isDigit && d.isDigit && e.isDigit &&
         f.isDigit && g.isDigit && (w1 != '\n')) &&
          match dropLit? ("trimmed".toList) rest with
          | none => false
          | some r3 =>
            match r3 with
            | w2 :: r4 =>
              (w2 != '\n') &&
                match dropLit? ("fastq".toList) r4 with
                | none => false
                | some r5 =>
                  match r5 with
                  | w3 :: r6 => (w3 != '\n') && (r6 == ['g', 'z'])
                  | _ => false
            | _ => false
      | _ => false

/-- Step function for the greedy name group of the per-pair pattern. -/
def dStep (pre suf : Str) : Option Str :=
  if '\n' ∈ pre then none
  else if tailMatches2 suf then some pre else none

/-- Embedding of `re.match(reg, basename(r))[1]`: the sample id extracted from a
trimmed-sequence filename (count.py lines 277-290), `none` when the
pattern does not match. -/
def direct_seq_id (f : Str) : Option Str :=
  greedyBack dStep [] f

/-- Embedding of `zip(fp_iter, fp_iter)` over a single iterator: consecutive pairs; an
odd final element belongs to no pair. -/
def pairUp {α : Type} : List α → List (α × α)
  | a :: b :: rest => (a, b) :: pairUp rest
  | _ => []

/-- The body of the per-pair loop of `direct_sequence_counts` (count.py
lines 276-297): extract and compare the sample ids of the pair, count both
files (via `count_sequences_in_fastq`, the file contents abstracted by
`cnt`), and emit one row per pair. -/
def processPairs (cnt : Str → FastqVariant → Option ℕ) (lane : Str) :
    List (Str × Str) → Except DirError (List (Str × Str × ℚ))
  | [] => .ok []
  | (r1, r2) :: ps =>
    match direct_seq_id (basenameL r1), direct_seq_id (basenameL r2) with
    | none, _ => .error (.badSample r1 r2)
    | some _, none => .error (.badSample r1 r2)
    | some id1, some id2 =>
      if id1 ≠ id2 then .error (.mismatch r1 r2)
      else
        match count_sequences_in_fastq (cnt r1) with
        | none => .error (.cantOpen r1)
        | some c1 =>
          match count_sequences_in_fastq (cnt r2) with
          | none => .error (.cantOpen r2)
          | some c2 =>
            match processPairs cnt lane ps with
            | .error e => .error e
            | .ok rs => .ok ((id1, lane, ((c1 : ℚ) + (c2 : ℚ))) :: rs)

/-- One (project, lane) iteration of `direct_sequence_counts` downstream of
the glob: `files` is the sorted glob result, consumed in consecutive
pairs. -/
def direct_lane_counts (cnt : Str → FastqVariant → Option ℕ) (lane : Str)
    (files : List Str) : Except DirError (List (Str × Str × ℚ)) :=
  processPairs cnt lane (pairUp files)

/-- A sorted glob listing with an odd number of files: the forward and
reverse files of sample `x`, then an unpaired forward file of sample `y`. -/
def oddFiles : List Str :=
  ["x_S1_L001_R1_001.trimmed.fastq.gz".toList,
   "x_S1_L001_R2_001.trimmed.fastq.gz".toList,
   "y_S1_L001_R1_001.trimmed.fastq.gz".toList]

def oddCnt : Str → FastqVariant → Option ℕ :=
  fun _ _ => some 40

/-! ## Theorems -/

theorem dropLit?_eq_some {lit : Str} : ∀ {t r : Str}, dropLit? lit t = some r ↔ t = lit ++ r := by
  induction lit with
  | nil => intro t r; simp [dropLit?]
  | cons l ls ih =>
    intro t r
    cases t with
    | nil => simp [dropLit?]
    | cons c cs =>
      by_cases h : c = l
      · subst h; simp [dropLit?, ih]
      · simp only [dropLit?, if_neg h]
        constructor
        · intro h'; cases h'
        · intro h'
          exact absurd (List.cons_eq_cons.mp h').1 h

theorem dropLit?_append {lit r : Str} : dropLit? lit (lit ++ r) = some r :=
  dropLit?_eq_some.mpr rfl

theorem greedyBack_eq_none {β : Type} {step : Str → Str → Option β} :
    ∀ {suf pre : Str}, greedyBack step pre suf = none ↔
      ∀ a b : Str, suf = a ++ b → step (pre ++ a) b = none := by
  intro suf
  induction suf with
  | nil =>
    intro pre
    constructor
    · intro h a b hab
      obtain ⟨ha, hb⟩ := List.append_eq_nil.mp hab.symm
      subst ha; subst hb
      simpa [greedyBack] using h
    · intro h
      simpa [greedyBack] using h [] [] rfl
  | cons c rest ih =>
    intro pre
    constructor
    · intro h a b hab
      cases hrec : greedyBack step (pre ++ [c]) rest with
      | some r =>
        simp only [greedyBack, hrec] at h
        simp at h
      | none =>
        simp only [greedyBack, hrec] at h
        cases a with
        | nil =>
          have hb : b = c :: rest := by simpa using hab.symm
          subst hb
          simpa using h
        | cons a0 a' =>
          have ha0 : a0 = c := by
            have := congrArg List.head? hab
            simpa using this.symm
          subst ha0
          have hrest : rest = a' ++ b := by
            have := congrArg List.tail hab
            simpa using this
          have := (@ih (pre ++ [a0])).mp hrec a' b hrest
          simpa [List.append_assoc] using this
    · intro h
      have hrec : greedyBack step (pre ++ [c]) rest = none := by
        apply (@ih (pre ++ [c])).mpr
        intro a b hab
        have := h (c :: a) b (by simp [hab])
        simpa [List.append_assoc] using this
      simp only [greedyBack, hrec]
      simpa using h [] (c :: rest) rfl

theorem greedyBack_eq_some {β : Type} {step : Str → Str → Option β} :
    ∀ {suf pre : Str} {r : β}, greedyBack step pre suf = some r →
      ∃ a b : Str, suf = a ++ b ∧ step (pre ++ a) b = some r := by
  intro suf
  induction suf with
  | nil =>
    intro pre r h
    exact ⟨[], [], rfl, by simpa [greedyBack] using h⟩
  | cons c rest ih =>
    intro pre r h
    cases hrec : greedyBack step (pre ++ [c]) rest with
    | none =>
      simp only [greedyBack, hrec] at h
      exact ⟨[], c :: rest, rfl, by simpa using h⟩
    | some r' =>
      simp only [greedyBack, hrec] at h
      cases h
      rcases ih hrec with ⟨a, b, hab, hstep⟩
      exact ⟨c :: a, b, by simp [hab], by simpa [List.append_assoc] using hstep⟩

theorem greedyBack_of_step {β : Type} {step : Str → Str → Option β} :
    ∀ (a : Str) {pre b : Str} {r : β},
      (∀ a1 b1 : Str, b = a1 ++ b1 → a1 ≠ [] → step (pre ++ a ++ a1) b1 = none) →
      step (pre ++ a) b = some r →
      greedyBack step pre (a ++ b) = some r := by
  intro a
  induction a with
  | nil =>
    intro pre b r hfail hstep
    simp only [List.append_nil] at hfail hstep
    simp only [List.nil_append]
    cases b with
    | nil => simpa [greedyBack] using hstep
    | cons c rest =>
      have hrec : greedyBack step (pre ++ [c]) rest = none := by
        apply greedyBack_eq_none.mpr
        intro a2 b2 hab
        have := hfail (c :: a2) b2 (by simp [hab]) (by simp)
        simpa [List.append_assoc] using this
      simp only [greedyBack, hrec]
      simpa using hstep
  | cons c a' ih =>
    intro pre b r hfail hstep
    have hsome : greedyBack step (pre ++ [c]) (a' ++ b) = some r := by
      apply ih
      · intro a1 b1 hab hne
        have := hfail a1 b1 hab hne
        simpa [List.append_assoc] using this
      · simpa [List.append_assoc] using hstep
    simp only [List.cons_append, greedyBack, List.append_eq, hsome]

theorem takeWhile_append_not {p : Char → Bool} :
    ∀ (xs : Str) {y : Char} (ys : Str), (∀ x ∈ xs, p x = true) → p y = false →
      (xs ++ y :: ys).takeWhile p = xs ∧ (xs ++ y :: ys).dropWhile p = y :: ys := by
  intro xs
  induction xs with
  | nil =>
    intro y ys _ hy
    simp [List.takeWhile, List.dropWhile, hy]
  | cons x xs ih =>
    intro y ys hall hy
    have hx : p x = true := hall x (List.mem_cons_self x xs)
    have := ih ys (fun z hz => hall z (List.mem_cons_of_mem x hz)) hy
    simp [List.takeWhile, List.dropWhile, hx, this.1, this.2]

theorem mem_takeWhile {p : Char → Bool} :
    ∀ {l : Str} {c : Char}, c ∈ l.takeWhile p → p c = true := by
  intro l
  induction l with
  | nil => intro c h; simp [List.takeWhile] at h
  | cons a l ih =>
    intro c h
    by_cases ha : p a
    · simp only [List.takeWhile, ha] at h
      rcases List.mem_cons.mp h with rfl | h'
      · exact ha
      · exact ih h'
    · simp [List.takeWhile, ha] at h

theorem matchTail_eq_some_iff {t ls : Str} :
    matchTail t = some ls ↔
      ∃ cell laneF d n rest, t = tailShape cell laneF d n rest ∧
        ConvParts cell laneF d n ∧ ls = 'L' :: laneF := by
  constructor
  · intro h
    simp only [matchTail] at h
    cases h1 : dropLit? ['_', 'S'] t with
    | none => rw [h1] at h; cases h
    | some r1 =>
      rw [h1] at h
      simp only at h
      by_cases hc : r1.takeWhile Char.isDigit ≠ [] ∧ (r1.takeWhile Char.isDigit).length ≤ 4
      · rw [if_pos hc] at h
        cases h2 : dropLit? ['_', 'L'] (r1.dropWhile Char.isDigit) with
        | none => rw [h2] at h; cases h
        | some r3 =>
          rw [h2] at h
          simp only at h
          by_cases hl : r3.takeWhile Char.isDigit ≠ [] ∧ (r3.takeWhile Char.isDigit).length ≤ 3
          · rw [if_pos hl] at h
            cases h3 : dropLit? ['_'] (r3.dropWhile Char.isDigit) with
            | none => rw [h3] at h; cases h
            | some r5 =>
              rw [h3] at h
              simp only at h
              match r5, h3 with
              | [], h3 => cases h
              | [d], h3 => cases h
              | d :: n :: r6, h3 =>
                simp only at h
                by_cases hdn : (d = 'R' ∨ d = 'I') ∧ (n = '1' ∨ n = '2')
                · rw [if_pos hdn] at h
                  refine ⟨r1.takeWhile Char.isDigit, r3.takeWhile Char.isDigit, d, n, r6,
                    ?_, ?_, ?_⟩
                  · have ht : t = ['_', 'S'] ++ r1 := dropLit?_eq_some.mp h1
                    have hr1 : r1 = r1.takeWhile Char.isDigit ++ r1.dropWhile Char.isDigit :=
                      (List.takeWhile_append_dropWhile (p := Char.isDigit) (l := r1)).symm
                    have hr2 : r1.dropWhile Char.isDigit = ['_', 'L'] ++ r3 :=
                      dropLit?_eq_some.mp h2
                    have hr3 : r3 = r3.takeWhile Char.isDigit ++ r3.dropWhile Char.isDigit :=
                      (List.takeWhile_append_dropWhile (p := Char.isDigit) (l := r3)).symm
                    have hr4 : r3.dropWhile Char.isDigit = ['_'] ++ (d :: n :: r6) :=
                      dropLit?_eq_some.mp h3
                    rw [ht, tailShape]
                    conv_lhs => rw [hr1, hr2]
                    conv_lhs => rw [hr3, hr4]
                    simp
                  · exact ⟨hc.1, hc.2, fun c hc' => mem_takeWhile hc',
                      hl.1, hl.2, fun c hc' => mem_takeWhile hc', hdn.1, hdn.2⟩
                  · cases h; rfl
                · rw [if_neg hdn] at h; cases h
          · rw [if_neg hl] at h; cases h
      · rw [if_neg hc] at h; cases h
  · rintro ⟨cell, laneF, d, n, rest, ht, hconv, hls⟩
    obtain ⟨hc1, hc2, hc3, hl1, hl2, hl3, hd, hn⟩ := hconv
    have h1 : dropLit? ['_', 'S'] t =
        some (cell ++ '_' :: 'L' :: (laneF ++ '_' :: d :: n :: rest)) := by
      apply dropLit?_eq_some.mpr
      rw [ht]; rfl
    have hcell := takeWhile_append_not (p := Char.isDigit) (y := '_') cell
      ('L' :: (laneF ++ '_' :: d :: n :: rest)) hc3 (by decide)
    have h2 : dropLit? ['_', 'L'] ('_' :: 'L' :: (laneF ++ '_' :: d :: n :: rest)) =
        some (laneF ++ '_' :: d :: n :: rest) := dropLit?_eq_some.mpr rfl
    have hlane := takeWhile_append_not (p := Char.isDigit) (y := '_') laneF (d :: n :: rest) hl3 (by decide)
    have h3 : dropLit? ['_'] ('_' :: d :: n :: rest) = some (d :: n :: rest) :=
      dropLit?_eq_some.mpr rfl
    simp only [matchTail, h1, hcell.1, hcell.2, h2, hlane.1, hlane.2, h3]
    rw [if_pos ⟨hc1, hc2⟩, if_pos ⟨hl1, hl2⟩, if_pos ⟨hd, hn⟩, hls]

theorem fStep_eq_some {pre suf : Str} {r : Str × Str} :
    fStep pre suf = some r ↔
      '\n' ∉ pre ∧ ∃ ls, matchTail suf = some ls ∧ r = (pre, ls) := by
  unfold fStep
  by_cases h : '\n' ∈ pre
  · simp [h]
  · cases hm : matchTail suf <;> simp [h, hm, eq_comm]

theorem fStep_none_of_matchTail {pre suf : Str} (h : matchTail suf = none) :
    fStep pre suf = none := by
  unfold fStep
  by_cases hp : '\n' ∈ pre <;> simp [hp, h]

theorem extract_eq_some_decomp {s nm l : Str} (h : _extract_name_and_lane s = some (nm, l)) :
    ∃ cell laneF d n rest, IsDecomp s nm cell laneF d n rest ∧
      l = laneF.dropWhile (fun c => c == '0') := by
  unfold _extract_name_and_lane at h
  cases hg : greedyBack fStep [] s with
  | none => rw [hg] at h; cases h
  | some r =>
    rw [hg] at h
    simp only at h
    obtain ⟨a, b, hab, hstep⟩ := greedyBack_eq_some hg
    rw [List.nil_append] at hstep
    obtain ⟨hnl, ls, hmt, hr⟩ := fStep_eq_some.mp hstep
    obtain ⟨cell, laneF, d, n, rest, hb, hconv, hls⟩ := matchTail_eq_some_iff.mp hmt
    subst hr
    simp only at h
    have h' := Option.some.inj h
    have hnm : nm = a := by
      have := congrArg Prod.fst h'
      simpa using this.symm
    have hl : l = (ls.drop 1).dropWhile (fun c => c == '0') := by
      have := congrArg Prod.snd h'
      simpa using this.symm
    subst hnm
    refine ⟨cell, laneF, d, n, rest, ⟨?_, hnl, hconv⟩, ?_⟩
    · rw [hab, hb]
    · rw [hl, hls]
      rfl

theorem extract_some_of_matches {s : Str} (h : MatchesConvention s) :
    ∃ r, _extract_name_and_lane s = some r := by
  obtain ⟨name, cell, laneF, d, n, rest, hs, hnl, hconv⟩ := h
  have hmt : matchTail (tailShape cell laneF d n rest) = some ('L' :: laneF) :=
    matchTail_eq_some_iff.mpr ⟨cell, laneF, d, n, rest, rfl, hconv, rfl⟩
  have hstep : fStep name (tailShape cell laneF d n rest) = some (name, 'L' :: laneF) :=
    fStep_eq_some.mpr ⟨hnl, 'L' :: laneF, hmt, rfl⟩
  cases hg : greedyBack fStep [] s with
  | some r =>
    exact ⟨(r.1, (r.2.drop 1).dropWhile (fun c => c == '0')), by
      unfold _extract_name_and_lane
      rw [hg]⟩
  | none =>
    exfalso
    have := greedyBack_eq_none.mp hg name (tailShape cell laneF d n rest) hs
    rw [List.nil_append, hstep] at this
    cases this

/-- Claim C6: for every filename matching the convention
`<name>_S<cellnum>_L<lane>_<R|I><1|2>...`, `_extract_name_and_lane` returns
`(name, lane)` where the lane group has its leading `L` and all leading
zeros stripped, and for every filename not matching the convention it fails
(returns `none`, modelling the `ValueError`) rather than passing the name
through. -/
theorem extract_name_and_lane_spec (s : Str) :
    ((∃ r, _extract_name_and_lane s = some r) ↔ MatchesConvention s) ∧
    (¬ MatchesConvention s → _extract_name_and_lane s = none) ∧
    (∀ nm l, _extract_name_and_lane s = some (nm, l) →
      ∃ cell laneF d n rest, IsDecomp s nm cell laneF d n rest ∧
        l = laneF.dropWhile (fun c => c == '0')) := by
  refine ⟨⟨?_, extract_some_of_matches⟩, ?_, fun nm l h => extract_eq_some_decomp h⟩
  · rintro ⟨⟨nm, l⟩, h⟩
    obtain ⟨cell, laneF, d, n, rest, hd, _⟩ := extract_eq_some_decomp h
    exact ⟨nm, cell, laneF, d, n, rest, hd⟩
  · intro hnot
    cases hr : _extract_name_and_lane s with
    | none => rfl
    | some r =>
      exfalso
      obtain ⟨nm', l'⟩ := r
      obtain ⟨cell, laneF, d, n, rest, hd, _⟩ := extract_eq_some_decomp hr
      exact hnot ⟨nm', cell, laneF, d, n, rest, hd⟩

/-- Witness for C6 at the filename `sample1_S4_L001_R1_001.fastq.gz`. -/
theorem extract_name_and_lane_spec_witness :
    MatchesConvention ("sample1_S4_L001_R1_001.fastq.gz".toList) ∧
    (∃ r, _extract_name_and_lane ("sample1_S4_L001_R1_001.fastq.gz".toList) = some r) := by
  have hm : MatchesConvention ("sample1_S4_L001_R1_001.fastq.gz".toList) :=
    ⟨"sample1".toList, ['4'], ['0', '0', '1'], 'R', '1', "_001.fastq.gz".toList, by
      unfold IsDecomp ConvParts tailShape
      decide⟩
  exact ⟨hm, (extract_name_and_lane_spec ("sample1_S4_L001_R1_001.fastq.gz".toList)).1.mpr hm⟩

theorem extract_append_of_tail (name suf nm2 : Str)
    (hnl : '\n' ∉ name)
    (hfail : ∀ i : ℕ, i < suf.length → matchTail (suf.drop (i + 1)) = none)
    (hmt : matchTail suf = some nm2) :
    _extract_name_and_lane (name ++ suf) =
      some (name, (nm2.drop 1).dropWhile (fun c => c == '0')) := by
  have hstep : fStep name suf = some (name, nm2) :=
    fStep_eq_some.mpr ⟨hnl, nm2, hmt, rfl⟩
  have hg : greedyBack fStep [] (name ++ suf) = some (name, nm2) := by
    apply greedyBack_of_step name
    · intro a1 b1 hab hne
      have hlen : a1.length ≤ suf.length := by
        have := congrArg List.length hab
        simp only [List.length_append] at this
        omega
      have ha1 : 1 ≤ a1.length := by
        cases a1 with
        | nil => exact absurd rfl hne
        | cons _ _ => simp
      have hb1 : b1 = suf.drop a1.length := by
        rw [hab, List.drop_left]
      have hmt1 : matchTail b1 = none := by
        rw [hb1, show a1.length = (a1.length - 1) + 1 by omega]
        exact hfail (a1.length - 1) (by omega)
      exact fStep_none_of_matchTail hmt1
    · simpa using hstep
  unfold _extract_name_and_lane
  rw [hg]

/-- Claim C9: for every filename whose lane field consists entirely of
zeros (for instance `..._L000_R1...`), `_extract_name_and_lane` returns the
empty string as the lane — stripping the `L` and all the zeros leaves
nothing — rather than a canonical `"0"`. -/
theorem extract_all_zero_lane (name : Str) (k : ℕ)
    (h1 : '\n' ∉ name) (h2 : 1 ≤ k) (h3 : k ≤ 3) :
    _extract_name_and_lane
      (name ++ tailShape ['1'] (List.replicate k '0') 'R' '1' ("_001.fastq.gz".toList)) =
      some (name, []) := by
  interval_cases k
  · exact extract_append_of_tail name
      (tailShape ['1'] (List.replicate 1 '0') 'R' '1' ("_001.fastq.gz".toList))
      ('L' :: List.replicate 1 '0') h1 (by decide) (by decide)
  · exact extract_append_of_tail name
      (tailShape ['1'] (List.replicate 2 '0') 'R' '1' ("_001.fastq.gz".toList))
      ('L' :: List.replicate 2 '0') h1 (by decide) (by decide)
  · exact extract_append_of_tail name
      (tailShape ['1'] (List.replicate 3 '0') 'R' '1' ("_001.fastq.gz".toList))
      ('L' :: List.replicate 3 '0') h1 (by decide) (by decide)

/-- Witness for C9 at the filename `samp_S1_L000_R1_001.fastq.gz`: the lane
returned is the empty string. -/
theorem extract_all_zero_lane_witness :
    _extract_name_and_lane
      ("samp".toList ++ tailShape ['1'] (List.replicate 3 '0') 'R' '1' ("_001.fastq.gz".toList)) =
      some ("samp".toList, []) :=
  extract_all_zero_lane ("samp".toList) 3 (by decide) (by decide) (by decide)

theorem parseProcessedTail_eq_some_iff {t : Str} {m : ℕ} :
    parseProcessedTail t = some m ↔
      ∃ ds rest, t = procLit ++ ds ++ readsLit ++ rest ∧ ds ≠ [] ∧
        (∀ c ∈ ds, c.isDigit = true) ∧ m = natOfDigits ds := by
  constructor
  · intro h
    simp only [parseProcessedTail] at h
    cases h1 : dropLit? procLit t with
    | none => rw [h1] at h; cases h
    | some r =>
      rw [h1] at h
      simp only at h
      by_cases hds : r.takeWhile Char.isDigit = []
      · rw [if_pos hds] at h; cases h
      · rw [if_neg hds] at h
        cases h2 : dropLit? readsLit (r.dropWhile Char.isDigit) with
        | none => rw [h2] at h; cases h
        | some rest' =>
          rw [h2] at h
          simp only at h
          refine ⟨r.takeWhile Char.isDigit, rest', ?_, hds,
            fun c hc => mem_takeWhile hc, (Option.some.inj h).symm⟩
          have ht : t = procLit ++ r := dropLit?_eq_some.mp h1
          have hr2 : r.dropWhile Char.isDigit = readsLit ++ rest' := dropLit?_eq_some.mp h2
          rw [ht]
          conv_lhs =>
            rw [(List.takeWhile_append_dropWhile (p := Char.isDigit) (l := r)).symm, hr2]
          simp
  · rintro ⟨ds, rest, ht, hne, hdig, hm⟩
    have h1 : dropLit? procLit t = some (ds ++ readsLit ++ rest) := by
      apply dropLit?_eq_some.mpr
      rw [ht]; simp
    have hsplit := takeWhile_append_not (p := Char.isDigit) (y := ' ') ds
      ('r' :: 'e' :: 'a' :: 'd' :: 's' :: rest) hdig (by decide)
    have hshape : ds ++ readsLit ++ rest = ds ++ ' ' :: ('r' :: 'e' :: 'a' :: 'd' :: 's' :: rest) := by
      simp [readsLit]
    have h2 : dropLit? readsLit ((ds ++ readsLit ++ rest).dropWhile Char.isDigit) =
        some rest := by
      rw [hshape, hsplit.2]
      exact dropLit?_eq_some.mpr rfl
    have htake : (ds ++ readsLit ++ rest).takeWhile Char.isDigit = ds := by
      rw [hshape, hsplit.1]
    simp only [parseProcessedTail, h1, htake, h2, if_neg hne, hm]

theorem sStep_eq_some {pre suf : Str} {m : ℕ} :
    sStep pre suf = some m ↔
      ∃ t, suf = ']' :: t ∧ '\n' ∉ pre ∧ parseProcessedTail t = some m := by
  constructor
  · intro h
    simp only [sStep] at h
    cases h1 : dropLit? [']'] suf with
    | none => rw [h1] at h; cases h
    | some t =>
      rw [h1] at h
      simp only at h
      by_cases hp : '\n' ∈ pre
      · rw [if_pos hp] at h; cases h
      · rw [if_neg hp] at h
        exact ⟨t, by simpa using dropLit?_eq_some.mp h1, hp, h⟩
  · rintro ⟨t, hsuf, hp, hpt⟩
    have h1 : dropLit? [']'] suf = some t := dropLit?_eq_some.mpr (by simpa using hsuf)
    simp only [sStep, h1, if_neg hp, hpt]

theorem samtoolsMatch_some_decomp {s : Str} {m : ℕ} (h : samtoolsMatch s = some m) :
    ∃ a ds rest, SamDecomp s a ds rest ∧ m = natOfDigits ds := by
  simp only [samtoolsMatch] at h
  cases h1 : dropLit? ['['] s with
  | none => rw [h1] at h; cases h
  | some rest0 =>
    rw [h1] at h
    obtain ⟨a, b, hab, hstep⟩ := greedyBack_eq_some h
    rw [List.nil_append] at hstep
    obtain ⟨t, hb, hp, hpt⟩ := sStep_eq_some.mp hstep
    obtain ⟨ds, rest, ht, hne, hdig, hm⟩ := parseProcessedTail_eq_some_iff.mp hpt
    refine ⟨a, ds, rest, ⟨?_, hp, hne, hdig⟩, hm⟩
    have hs : s = '[' :: rest0 := by simpa using dropLit?_eq_some.mp h1
    rw [hs, hab, hb, ht]

theorem samtoolsMatch_some_of_decomp {s a ds rest : Str} (h : SamDecomp s a ds rest) :
    ∃ m, samtoolsMatch s = some m := by
  obtain ⟨hs, hp, hne, hdig⟩ := h
  have h1 : dropLit? ['['] s = some (a ++ ']' :: (procLit ++ ds ++ readsLit ++ rest)) :=
    dropLit?_eq_some.mpr (by simpa using hs)
  have hpt : parseProcessedTail (procLit ++ ds ++ readsLit ++ rest) =
      some (natOfDigits ds) :=
    parseProcessedTail_eq_some_iff.mpr ⟨ds, rest, by simp, hne, hdig, rfl⟩
  have hstep : sStep a (']' :: (procLit ++ ds ++ readsLit ++ rest)) =
      some (natOfDigits ds) :=
    sStep_eq_some.mpr ⟨procLit ++ ds ++ readsLit ++ rest, rfl, hp, hpt⟩
  simp only [samtoolsMatch, h1]
  cases hg : greedyBack sStep [] (a ++ ']' :: (procLit ++ ds ++ readsLit ++ rest)) with
  | some m => exact ⟨m, rfl⟩
  | none =>
    exfalso
    have := greedyBack_eq_none.mp hg a (']' :: (procLit ++ ds ++ readsLit ++ rest)) rfl
    rw [List.nil_append, hstep] at this
    cases this

/-- Claim C8: `_parse_samtools_counts` returns `N / 2` for every file whose
content begins with text matching `[...] processed <N> reads` (with `N` the
digit group of a matching decomposition), and fails (returns `none`,
modelling the `ValueError`) for every content that does not match the
pattern at the start. -/
theorem parse_samtools_counts_spec (s : Str) :
    ((∃ a ds rest, SamDecomp s a ds rest) →
      ∃ a ds rest, SamDecomp s a ds rest ∧
        _parse_samtools_counts s = some ((natOfDigits ds : ℚ) / 2)) ∧
    ((¬ ∃ a ds rest, SamDecomp s a ds rest) → _parse_samtools_counts s = none) := by
  constructor
  · rintro ⟨a, ds, rest, hd⟩
    obtain ⟨m, hm⟩ := samtoolsMatch_some_of_decomp hd
    obtain ⟨a', ds', rest', hd', hmv⟩ := samtoolsMatch_some_decomp hm
    refine ⟨a', ds', rest', hd', ?_⟩
    simp only [_parse_samtools_counts, hm, hmv]
  · intro hnot
    cases hm : samtoolsMatch s with
    | none => simp [_parse_samtools_counts, hm]
    | some m =>
      exfalso
      obtain ⟨a, ds, rest, hd, _⟩ := samtoolsMatch_some_decomp hm
      exact hnot ⟨a, ds, rest, hd⟩

/-- Witness for C8 at the content `[mm2] processed 40 reads`. -/
theorem parse_samtools_counts_spec_witness :
    ∃ a ds rest, SamDecomp ("[mm2] processed 40 reads".toList) a ds rest ∧
      _parse_samtools_counts ("[mm2] processed 40 reads".toList) =
        some ((natOfDigits ds : ℚ) / 2) :=
  (parse_samtools_counts_spec ("[mm2] processed 40 reads".toList)).1
    ⟨"mm2".toList, ['4', '0'], [], by
      unfold SamDecomp procLit readsLit
      decide⟩

/-- Claim C7: `count_sequences_in_fastq` tries the three conventions in the
fixed order illumina1.8, illumina1.3, sanger, returns the record count of
the first that parses, and fails if and only if none parses; in particular
when every parsing variant reports the file's true record count `N`, the
counter returns `N` whenever any variant parses — even when the correct
convention is not first. -/
theorem count_sequences_in_fastq_spec (parse : FastqVariant → Option ℕ) (N : ℕ)
    (hN : ∀ v n, parse v = some n → n = N) :
    ((∃ v, parse v ≠ none) → count_sequences_in_fastq parse = some N) ∧
    (count_sequences_in_fastq parse = none ↔ ∀ v, parse v = none) ∧
    (∀ n, parse .illumina18 = some n → count_sequences_in_fastq parse = some n) := by
  refine ⟨?_, ⟨?_, ?_⟩, ?_⟩
  · rintro ⟨v, hv⟩
    cases h1 : parse .illumina18 with
    | some n =>
      have := hN _ _ h1
      subst this
      simp [count_sequences_in_fastq, firstSome, fastqVariants, h1]
    | none =>
      cases h2 : parse .illumina13 with
      | some n =>
        have := hN _ _ h2
        subst this
        simp [count_sequences_in_fastq, firstSome, fastqVariants, h1, h2]
      | none =>
        cases h3 : parse .sanger with
        | some n =>
          have := hN _ _ h3
          subst this
          simp [count_sequences_in_fastq, firstSome, fastqVariants, h1, h2, h3]
        | none =>
          exfalso
          apply hv
          cases v
          · exact h1
          · exact h2
          · exact h3
  · intro h v
    cases h1 : parse .illumina18 <;> cases h2 : parse .illumina13 <;>
      cases h3 : parse .sanger <;>
      simp only [count_sequences_in_fastq, firstSome, fastqVariants, h1, h2, h3] at h ⊢ <;>
      first
        | (cases v
           · exact h1
           · exact h2
           · exact h3)
        | cases h
  · intro h
    simp [count_sequences_in_fastq, firstSome, fastqVariants,
      h .illumina18, h .illumina13, h .sanger]
  · intro n h1
    simp [count_sequences_in_fastq, firstSome, fastqVariants, h1]

/-- Witness for C7: the counter falls through the wrong first convention
and still returns the true record count 80. -/
theorem count_sequences_in_fastq_spec_witness :
    count_sequences_in_fastq fallthroughParse = some 80 :=
  (count_sequences_in_fastq_spec fallthroughParse 80 (by
    intro v n h
    cases v <;> simp_all [fallthroughParse])).1
    ⟨.illumina13, by simp [fallthroughParse]⟩

theorem mem_markDups {k : Str × Str} :
    ∀ (ks seen : List (Str × Str)),
      k ∈ markDups seen ks ↔ (k ∈ seen ∧ k ∈ ks) ∨ ks.Duplicate k := by
  intro ks
  induction ks with
  | nil => intro seen; simp [markDups, List.not_duplicate_nil]
  | cons k0 ks ih =>
    intro seen
    simp only [markDups, List.mem_append, ih (k0 :: seen), List.mem_cons,
      List.duplicate_cons_iff]
    by_cases hk : k = k0
    · subst hk
      by_cases hs : k ∈ seen <;> simp [hs]
    · have hk' : ¬ k0 = k := fun h => hk h.symm
      by_cases hs : k0 ∈ seen <;> simp [hs, hk, hk']

theorem markDups_ne_nil {ks : List (Str × Str)} (h : ¬ ks.Nodup) :
    markDups [] ks ≠ [] := by
  obtain ⟨k, hk⟩ := List.exists_duplicate_iff_not_nodup.mpr h
  have : k ∈ markDups [] ks := (mem_markDups ks []).mpr (Or.inr hk)
  intro hnil
  rw [hnil] at this
  cases this

/-- Claim C5: whenever two or more retained log files resolve to the same
(Sample_ID, Lane) pair, `_parsefier` fails with the duplicate-match error
whose payload is the duplicated occurrences, and every key occurring at
least twice among the retained rows appears in that payload; a duplicate is
never silently resolved. -/
theorem parsefier_duplicate_error (glob : Str → List Str) (funk : Str → Option ℚ)
    (run_dir : Str) (metadata : List SampleRecord) (subdir suffix : Str)
    (allRows : List PRow)
    (hrows : collectRows glob run_dir subdir suffix (manifestProjects metadata) = .ok allRows)
    (hdup : ¬ (keptKeys metadata allRows).Nodup) :
    _parsefier glob funk run_dir metadata subdir suffix =
      .error (.dupMatches (markDups [] (keptKeys metadata allRows))) ∧
    ∀ k, (keptKeys metadata allRows).Duplicate k →
      k ∈ markDups [] (keptKeys metadata allRows) := by
  constructor
  · simp only [_parsefier, hrows]
    rw [if_pos (markDups_ne_nil hdup)]
  · intro k hk
    exact (mem_markDups _ _).mpr (Or.inr hk)

/-- Witness for C5: with two files mapping to (S, lane 1), `_parsefier`
raises the duplicate-match error. -/
theorem parsefier_duplicate_error_witness :
    _parsefier dup5Glob dup5Funk ("run".toList) dup5Meta ("samtools".toList) (".log".toList) =
      .error (.dupMatches (markDups [] (keptKeys dup5Meta dup5Rows))) ∧
    ∀ k, (keptKeys dup5Meta dup5Rows).Duplicate k →
      k ∈ markDups [] (keptKeys dup5Meta dup5Rows) :=
  parsefier_duplicate_error dup5Glob dup5Funk ("run".toList) dup5Meta
    ("samtools".toList) (".log".toList) dup5Rows (by rfl) (by decide)

theorem applyFunk_ok_keys {funk : Str → Option ℚ} :
    ∀ {rs : List PRow} {t : List (Str × Str × ℚ)}, applyFunk funk rs = .ok t →
      t.map (fun x => (x.1, x.2.1)) = rs.map fun r => (r.sid, r.lane) := by
  intro rs
  induction rs with
  | nil =>
    intro t h
    simp only [applyFunk] at h
    cases h
    rfl
  | cons r rs ih =>
    intro t h
    simp only [applyFunk] at h
    cases hf : funk r.path with
    | none => rw [hf] at h; cases h
    | some q =>
      rw [hf] at h
      simp only at h
      cases hr : applyFunk funk rs with
      | error e => rw [hr] at h; cases h
      | ok t' =>
        rw [hr] at h
        simp only at h
        cases h
        simp [ih hr]

/-- Claim C2 counterexample: the manifest combination (S, lane 2) has no
matching log, yet `_parsefier` returns successfully with `warned = false` —
no warning is emitted, because the warning condition `expected > found`
compares Sample_ID sets only and `S` was found (in lane 1).  The affected
row is absent from the table, as the claim says, but the promised warning
does not fire, refuting the claim as stated. -/
theorem parsefier_lane_gap_no_warning :
    (⟨"S".toList, "P".toList, "2".toList⟩ : SampleRecord) ∈ gapMeta ∧
    _parsefier gapGlob gapFunk ("run".toList) gapMeta ("json".toList) (".json".toList) =
      .ok ⟨[("S".toList, "1".toList, (90 : ℚ))], false, []⟩ := by
  constructor
  · decide
  · rfl

/-- Claim C2 amended: a missing manifest sample/lane combination is never a
fatal error — when row collection, the duplicate check and the per-file
parses all pass, `_parsefier` returns a table whose keys are exactly the
retained rows' keys, so a combination without a log is simply absent; the
non-fatal warning fires if and only if every found Sample_ID is expected
and some expected Sample_ID has no log in any lane (the source compares
Sample_ID sets with `expected > found`, so a sample that is missing in one
lane but found in another triggers no warning). -/
theorem parsefier_missing_sample_nonfatal (glob : Str → List Str) (funk : Str → Option ℚ)
    (run_dir : Str) (metadata : List SampleRecord) (subdir suffix : Str)
    (allRows : List PRow) (table : List (Str × Str × ℚ))
    (hrows : collectRows glob run_dir subdir suffix (manifestProjects metadata) = .ok allRows)
    (hnodup : markDups [] (keptKeys metadata allRows) = [])
    (hfunk : applyFunk funk (keptRows metadata allRows) = .ok table) :
    _parsefier glob funk run_dir metadata subdir suffix =
      .ok ⟨table, warnedFlag metadata allRows,
        if warnedFlag metadata allRows then missingIds metadata allRows else []⟩ ∧
    (warnedFlag metadata allRows = true ↔
      (∀ x ∈ foundIds allRows, x ∈ expectedIds metadata) ∧
      ∃ x ∈ expectedIds metadata, x ∉ foundIds allRows) ∧
    table.map (fun x => (x.1, x.2.1)) = keptKeys metadata allRows := by
  refine ⟨?_, ?_, applyFunk_ok_keys hfunk⟩
  · simp only [_parsefier, hrows, hnodup, hfunk]
    simp
  · simp [warnedFlag, List.all_eq_true, List.any_eq_true]

/-- Witness for the amended C2 at the lane-gap input. -/
theorem parsefier_missing_sample_nonfatal_witness :
    _parsefier gapGlob gapFunk ("run".toList) gapMeta ("json".toList) (".json".toList) =
      .ok ⟨[("S".toList, "1".toList, (90 : ℚ))], warnedFlag gapMeta gapRows,
        if warnedFlag gapMeta gapRows then missingIds gapMeta gapRows else []⟩ ∧
    (warnedFlag gapMeta gapRows = true ↔
      (∀ x ∈ foundIds gapRows, x ∈ expectedIds gapMeta) ∧
      ∃ x ∈ expectedIds gapMeta, x ∉ foundIds gapRows) ∧
    ([("S".toList, "1".toList, (90 : ℚ))].map (fun x => (x.1, x.2.1))) =
      keptKeys gapMeta gapRows :=
  parsefier_missing_sample_nonfatal gapGlob gapFunk ("run".toList) gapMeta
    ("json".toList) (".json".toList) gapRows
    [("S".toList, "1".toList, (90 : ℚ))] (by rfl) (by rfl) (by rfl)

theorem bcl2fastq_variant_nodup {blocks : List LaneBlock} {t : DemuxTable}
    (h : _bcl2fastq_counts blocks = .ok t) : (t.map Prod.fst).Nodup := by
  simp only [_bcl2fastq_counts] at h
  by_cases hb : blocks = []
  · rw [if_pos hb] at h; cases h
  · rw [if_neg hb] at h
    set rows := blocks.flatMap fun b =>
      b.DemuxResults.map fun p => ((p.1, toString b.LaneNumber), (p.2 : ℚ)) with hrows
    by_cases hn : (rows.map Prod.fst).Nodup
    · rw [if_pos hn] at h
      exact (Except.ok.inj h) ▸ hn
    · rw [if_neg hn] at h; cases h

theorem bclconvert_variant_nodup {rows : List CsvRow} {t : DemuxTable}
    (h : _bclconvert_counts rows = .ok t) : (t.map Prod.fst).Nodup := by
  simp only [_bclconvert_counts] at h
  set table := (rows.filter fun r => decide (r.SampleID ≠ "Undetermined")).map
    fun r => ((r.SampleID, toString r.Lane), ((r.Reads * 2 : ℕ) : ℚ)) with ht
  by_cases hn : (table.map Prod.fst).Nodup
  · rw [if_pos hn] at h
    exact (Except.ok.inj h) ▸ hn
  · rw [if_neg hn] at h; cases h

/-- Claim C4: `bcl2fastq_counts` probes the two fixed report paths — both
present is an I/O error, neither present is an I/O error — and when exactly
one exists it parses that variant, any returned table being uniquely keyed
by (Sample_ID, Lane as string). -/
theorem bcl2fastq_counts_spec (env : DemuxEnv) :
    (∀ j c, env.statsJson = some j → env.demuxCsv = some c →
      bcl2fastq_counts env = .error .bothExist) ∧
    (env.statsJson = none → env.demuxCsv = none →
      bcl2fastq_counts env = .error .neitherExists) ∧
    (∀ t, bcl2fastq_counts env = .ok t →
      (t.map Prod.fst).Nodup ∧
      ((∃ j, env.statsJson = some j ∧ env.demuxCsv = none ∧ _bcl2fastq_counts j = .ok t) ∨
       (∃ c, env.statsJson = none ∧ env.demuxCsv = some c ∧ _bclconvert_counts c = .ok t))) := by
  obtain ⟨sj, dc⟩ := env
  refine ⟨?_, ?_, ?_⟩
  · intro j c hj hc
    subst hj; subst hc
    rfl
  · intro hj hc
    subst hj; subst hc
    rfl
  · intro t ht
    cases sj with
    | some j =>
      cases dc with
      | some c => cases ht
      | none =>
        simp only [bcl2fastq_counts] at ht
        exact ⟨bcl2fastq_variant_nodup ht, Or.inl ⟨j, rfl, rfl, ht⟩⟩
    | none =>
      cases dc with
      | some c =>
        simp only [bcl2fastq_counts] at ht
        exact ⟨bclconvert_variant_nodup ht, Or.inr ⟨c, rfl, rfl, ht⟩⟩
      | none => cases ht

/-- Witness for C4 at a run with only the JSON report present. -/
theorem bcl2fastq_counts_spec_witness :
    (([(("s1", "1"), (100 : ℚ)), (("s2", "1"), (60 : ℚ))].map Prod.fst).Nodup ∧
      ((∃ j, statsOnlyEnv.statsJson = some j ∧ statsOnlyEnv.demuxCsv = none ∧
        _bcl2fastq_counts j = .ok [(("s1", "1"), (100 : ℚ)), (("s2", "1"), (60 : ℚ))]) ∨
       (∃ c, statsOnlyEnv.statsJson = none ∧ statsOnlyEnv.demuxCsv = some c ∧
        _bclconvert_counts c = .ok [(("s1", "1"), (100 : ℚ)), (("s2", "1"), (60 : ℚ))]))) :=
  (bcl2fastq_counts_spec statsOnlyEnv).2.2
    [(("s1", "1"), (100 : ℚ)), (("s2", "1"), (60 : ℚ))] (by rfl)

/-- Claim C1 counterexample: a sample with `raw_reads_r1r2 = 0` and a
present, positive `quality_filtered_reads_r1r2 = 80`.  The division yields
`+inf`, which `fillna` does **not** replace: the cell stays `inf` instead
of the claimed `"NA"`, refuting both "every missing or non-finite cell is
replaced by NA" and "`fraction_passing_quality_filter` is NA whenever the
denominator is zero". -/
theorem run_counts_zero_denominator_not_NA :
    run_counts [(("S", "1"), 0)] [] [] [(("S", "1"), 80)] =
      [⟨"S", "1", 0, .NA, .NA, .num (.fin 80), .num .inf, .NA⟩] ∧
    OutCell.num PFloat.inf ≠ OutCell.NA := by
  constructor
  · rfl
  · decide

/-- Claim C1 amended: after the left join, `fillna` replaces exactly the
missing cells by `"NA"`; for every row,
`fraction_passing_quality_filter = quality_filtered_reads_r1r2 / raw_reads_r1r2`
whenever both operands are present and the denominator is nonzero, the cell
is `"NA"` when an operand is missing or when both numerator and denominator
are zero, and it is `+inf` — not `"NA"` — when the denominator is zero and
the numerator is present and positive. -/
theorem run_counts_fraction_spec (demux fastp mm2 direct : DemuxTable)
    (k : String × String) (raw : ℚ) (hk : (k, raw) ∈ demux) :
    ∃ row ∈ run_counts demux fastp mm2 direct,
      row.sid = k.1 ∧ row.lane = k.2 ∧ row.raw_reads_r1r2 = raw ∧
      (direct.lookup k = none → row.fraction_passing_quality_filter = .NA) ∧
      (∀ q, direct.lookup k = some q → raw ≠ 0 →
        row.fraction_passing_quality_filter = .num (.fin (q / raw))) ∧
      (direct.lookup k = some 0 → raw = 0 →
        row.fraction_passing_quality_filter = .NA) ∧
      (∀ q, direct.lookup k = some q → raw = 0 → 0 < q →
        row.fraction_passing_quality_filter = .num .inf) ∧
      (fastp.lookup k = none ↔ row.total_biological_reads_r1r2 = .NA) ∧
      (mm2.lookup k = none ↔ row.non_host_reads = .NA) ∧
      (direct.lookup k = none ↔ row.quality_filtered_reads_r1r2 = .NA) := by
  refine ⟨_, List.mem_map_of_mem _ hk, rfl, rfl, rfl, ?_, ?_, ?_, ?_, ?_, ?_, ?_⟩
  · intro hd
    simp [divCell, fillRatio, hd]
  · intro q hd hraw
    simp [divCell, fillRatio, hd, hraw]
  · intro hd hraw
    simp [divCell, fillRatio, hd, hraw]
  · intro q hd hraw hq
    simp [divCell, fillRatio, hd, hraw, hq, hq.ne.symm]
  · cases hf : fastp.lookup k <;> simp [fillCell, hf]
  · cases hm : mm2.lookup k <;> simp [fillCell, hm]
  · cases hd : direct.lookup k <;> simp [fillCell, hd]

/-- Witness for the amended C1: one row with all operands present and a
nonzero denominator, whose fraction is the plain quotient. -/
theorem run_counts_fraction_spec_witness :
    ∃ row ∈ run_counts [(("S", "1"), 200)] [(("S", "1"), 90)]
        [(("S", "1"), 20)] [(("S", "1"), 80)],
      row.sid = "S" ∧ row.lane = "1" ∧ row.raw_reads_r1r2 = 200 ∧
      (List.lookup ("S", "1") [(("S", "1"), (80 : ℚ))] = none →
        row.fraction_passing_quality_filter = .NA) ∧
      (∀ q, List.lookup ("S", "1") [(("S", "1"), (80 : ℚ))] = some q → (200 : ℚ) ≠ 0 →
        row.fraction_passing_quality_filter = .num (.fin (q / 200))) ∧
      (List.lookup ("S", "1") [(("S", "1"), (80 : ℚ))] = some 0 → (200 : ℚ) = 0 →
        row.fraction_passing_quality_filter = .NA) ∧
      (∀ q, List.lookup ("S", "1") [(("S", "1"), (80 : ℚ))] = some q → (200 : ℚ) = 0 → 0 < q →
        row.fraction_passing_quality_filter = .num .inf) ∧
      (List.lookup ("S", "1") [(("S", "1"), (90 : ℚ))] = none ↔
        row.total_biological_reads_r1r2 = .NA) ∧
      (List.lookup ("S", "1") [(("S", "1"), (20 : ℚ))] = none ↔
        row.non_host_reads = .NA) ∧
      (List.lookup ("S", "1") [(("S", "1"), (80 : ℚ))] = none ↔
        row.quality_filtered_reads_r1r2 = .NA) :=
  run_counts_fraction_spec [(("S", "1"), 200)] [(("S", "1"), 90)]
    [(("S", "1"), 20)] [(("S", "1"), 80)] ("S", "1") 200 (by decide)

theorem joinL_ne_nil {a b : Str} (hb : b ≠ []) : joinL a b ≠ [] := by
  unfold joinL
  by_cases ha : a = []
  · simpa [ha] using hb
  · simp [ha]

/-- Claim C3 (code bug): for every filesystem state — in particular when
only `trimmed_sequences` exists, or when neither directory exists —
`direct_sequence_counts` selects `<run_dir>/<project>/filtered_sequences`
and never raises the "directories do not exist" error, because
`join(run_dir, 'filtered_sequences')` is a nonempty (hence truthy) string;
`exists()` is never called.  This contradicts the claimed exists-on-disk
dispatch and makes the error branch unreachable. -/
theorem direct_seq_subdir_ignores_existence (dirExists : Str → Bool)
    (run_dir project : Str) :
    direct_seq_subdir dirExists run_dir project =
      .ok (joinL run_dir (joinL project filteredLit)) := by
  unfold direct_seq_subdir
  rw [if_pos (joinL_ne_nil (by decide))]

theorem pairUp_odd {α : Type} : ∀ (l : List α), l.length % 2 = 1 →
    pairUp l = pairUp l.dropLast
  | [] => by intro h; simp at h
  | [a] => by intro h; rfl
  | a :: b :: rest => by
    intro h
    have hr : rest.length % 2 = 1 := by
      simp only [List.length_cons] at h
      omega
    have ih := pairUp_odd rest hr
    cases rest with
    | nil => simp at hr
    | cons c rest' =>
      simp only [pairUp, List.dropLast_cons₂]
      rw [ih]

/-- Claim C10: when the sorted glob of sequence files for a (project, lane)
has odd length, the final unpaired file is silently ignored — the result is
identical to running on the list without its last element, so the odd file
contributes no row and raises no error, because files are consumed strictly
in consecutive sorted pairs. -/
theorem direct_lane_counts_odd_ignores_last
    (cnt : Str → FastqVariant → Option ℕ) (lane : Str) (files : List Str)
    (h : files.length % 2 = 1) :
    direct_lane_counts cnt lane files = direct_lane_counts cnt lane files.dropLast := by
  unfold direct_lane_counts
  rw [pairUp_odd files h]

/-- Witness for C10 at a three-file listing. -/
theorem direct_lane_counts_odd_ignores_last_witness :
    direct_lane_counts oddCnt ("1".toList) oddFiles =
      direct_lane_counts oddCnt ("1".toList) oddFiles.dropLast :=
  direct_lane_counts_odd_ignores_last oddCnt ("1".toList) oddFiles (by decide)
